import Mathlib

/-
Shallow embedding of the SwasthBot core (src/dataaas/swasthbot_with_herbs.py):
the spreadsheet loader, the symptom-based scorer with risk tiers, the
stable ranking of scored diseases, and the regex-backed name search.
Cells are modelled as strings (pandas astype(str) is the identity on this
model).  The Python string primitives lower/strip/split are re-implemented
by structural recursion on the character list so that every definition
evaluates inside the kernel; they model the ASCII behaviour of the
originals.  Python float division `score / max(len, 1) > 0.5` is modelled
by the exact rational comparison `max len 1 < 2 * score`, which agrees
with IEEE double arithmetic for all realistic operand sizes (below 2^52).
-/

set_option maxHeartbeats 1600000

/-- Python str.lower on a character list (ASCII model). -/
def pyLower (cs : List Char) : List Char := cs.map Char.toLower

/-- Python str.strip on a character list: drop leading and trailing
whitespace. -/
def pyStrip (cs : List Char) : List Char :=
  ((cs.dropWhile Char.isWhitespace).reverse.dropWhile Char.isWhitespace).reverse

/-- Python str.split(",") on a character list: the groups between commas
(an empty input gives one empty group, as in Python). -/
def pySplitComma : List Char → List (List Char)
  | [] => [[]]
  | c :: rest =>
    match pySplitComma rest with
    | [] => [[c]]
    | g :: gs => if c = ',' then [] :: g :: gs else (c :: g) :: gs

/-- Python str.lower as a String operation. -/
def pyLowerStr (s : String) : String := String.mk (pyLower s.data)

/-- Python str.strip as a String operation. -/
def pyStripStr (s : String) : String := String.mk (pyStrip s.data)

/-- Tokenize a comma-separated cell as the scorer does (lines 133-136):
`str(x).lower().split(",")`, then strip each piece, dropping pieces that
are empty after stripping. -/
def splitTokens (raw : String) : List String :=
  (((pySplitComma (pyLower raw.data)).map (fun g => String.mk (pyStrip g)))).filter
    (fun s => s ≠ "")

/-- Optional column names materialized by the loader (line 30). -/
def optionalCols : List String :=
  ["medicines", "herbal_remedies", "red_flags", "symptoms", "care",
   "transmission", "prevention", "treatment", "refs", "about"]

/-- A column-oriented data frame: a list of (column name, cell values),
modelling the pandas DataFrame read from the spreadsheet. -/
structure DF where
  cols : List (String × List String)
deriving DecidableEq

/-- Column labels of a data frame (pandas df.columns). -/
def DF.names (df : DF) : List String := df.cols.map Prod.fst

/-- Number of rows of a data frame (length of any column; pandas frames are
rectangular, so the first column is representative). -/
def DF.nRows (df : DF) : Nat := (df.cols.head?.map (fun p => p.2.length)).getD 0

/-- Column access by label (pandas df[c]); the first column with that
label. -/
def DF.getCol? (df : DF) (c : String) : Option (List String) :=
  (df.cols.find? (fun p => p.1 = c)).map Prod.snd

/-- Header normalization of line 23: every column label stripped and
lower-cased. -/
def normCols (t : DF) : List (String × List String) :=
  t.cols.map (fun p => (pyLowerStr (pyStripStr p.1), p.2))

/-- The normalized column labels, the list reported by the fatal error. -/
def normNames (t : DF) : List String := (normCols t).map Prod.fst

/-- Line 27: lower-case every value of the "name" column of the
normalized frame. -/
def lowerNameCols (t : DF) : List (String × List String) :=
  (normCols t).map
    (fun p => if p.1 = "name" then (p.1, p.2.map pyLowerStr) else p)

/-- One iteration of the loop of lines 30-32: append the optional column c
when it is missing, filled with the empty string for each of the n rows. -/
def fillStep (n : Nat) (d : DF) (c : String) : DF :=
  if c ∈ d.names then d else DF.mk (d.cols ++ [(c, List.replicate n "")])

/-- Lines 30-32: append every recognized optional column that is
missing. -/
def fillOptional (cols : List (String × List String)) (n : Nat) : DF :=
  optionalCols.foldl (fillStep n) (DF.mk cols)

/-- Loader of lines 21-34: normalize headers; abort with the list of
discovered columns when no header normalizes to "name"; lower-case the
name column; materialize each missing optional column as empty strings.
The model assumes distinct normalized labels (pandas duplicate-label
frames are outside the modelled domain). -/
def load_disease_data (t : DF) : Except (List String) DF :=
  if "name" ∈ normNames t then
    Except.ok (fillOptional (lowerNameCols t) (DF.nRows (DF.mk (lowerNameCols t))))
  else Except.error (normNames t)

/-- One row of the loaded table, restricted to the fields the scorer and
the name search read (row['name'], row['symptoms'], row.get('red_flags')). -/
structure DiseaseRecord where
  name : String
  symptoms : String
  red_flags : String
deriving DecidableEq

/-- Cardinality of `set(symptom_input) & set(disease_symptoms)` (line 138):
the number of distinct observed tokens that are also disease symptom
tokens. -/
def matchedCount (obs : List String) (r : DiseaseRecord) : Nat :=
  ((obs.filter (fun s => s ∈ splitTokens r.symptoms)).dedup).length

/-- Cardinality of `set(symptom_input) & set(red_flags)` (line 144). -/
def matchedRedFlagCount (obs : List String) (r : DiseaseRecord) : Nat :=
  ((obs.filter (fun s => s ∈ splitTokens r.red_flags)).dedup).length

/-- Risk tier assignment of lines 144-150.  The float comparison
`score / max(len(disease_symptoms), 1) > 0.5` is the exact rational test
`max len 1 < 2 * score`; `len(disease_symptoms)` counts the comma-separated
tokens with multiplicity. -/
def riskOf (obs : List String) (r : DiseaseRecord) : String :=
  if 0 < matchedRedFlagCount obs r then "High 🔴"
  else if max (splitTokens r.symptoms).length 1 < 2 * matchedCount obs r then
    "Medium 🟠"
  else "Low 🟢"

/-- Python dict assignment d[k] = v: update in place when the key exists
(keeping its position), append otherwise. -/
def dictInsert {α : Type} : List (String × α) → String → α → List (String × α)
  | [], k, v => [(k, v)]
  | (k0, v0) :: m, k, v =>
    if k0 = k then (k0, v) :: m else (k0, v0) :: dictInsert m k v

/-- Python dict lookup d[k] (the value at the first matching key). -/
def dictGet? {α : Type} : List (String × α) → String → Option α
  | [], _ => none
  | (k0, v0) :: m, q => if k0 = q then some v0 else dictGet? m q

/-- Body of the scoring loop (lines 132-150): a record with a positive
match count stores its score and its risk tier under its name. -/
def scoreStep (obs : List String)
    (acc : List (String × Nat) × List (String × String)) (r : DiseaseRecord) :
    List (String × Nat) × List (String × String) :=
  if 0 < matchedCount obs r then
    (dictInsert acc.1 r.name (matchedCount obs r),
     dictInsert acc.2 r.name (riskOf obs r))
  else acc

/-- The scoring loop over all rows, threading both dicts. -/
def scoreFold (obs : List String) (rs : List DiseaseRecord)
    (acc : List (String × Nat) × List (String × String)) :
    List (String × Nat) × List (String × String) :=
  rs.foldl (scoreStep obs) acc

/-- The disease_scores dict after the loop of lines 130-150. -/
def disease_scores (rs : List DiseaseRecord) (obs : List String) :
    List (String × Nat) :=
  (scoreFold obs rs ([], [])).1

/-- The risk_levels dict after the loop of lines 130-150. -/
def risk_levels (rs : List DiseaseRecord) (obs : List String) :
    List (String × String) :=
  (scoreFold obs rs ([], [])).2

/-- Stable descending insertion by score: the new element goes after every
element whose score is at least as large. -/
def insertByScore (x : String × Nat) :
    List (String × Nat) → List (String × Nat)
  | [] => [x]
  | y :: ys => if x.2 ≤ y.2 then y :: insertByScore x ys else x :: y :: ys

/-- Model of `sorted(disease_scores.items(), key=lambda x: x[1],
reverse=True)` (line 154).  Python's sort is stable, and stability plus
sortedness determine the output uniquely, so this stable insertion sort
computes the same list. -/
def sortByScoreDesc (l : List (String × Nat)) : List (String × Nat) :=
  l.foldl (fun acc x => insertByScore x acc) []

/-- The ranked list of (disease name, score) shown to the user. -/
def sorted_diseases (rs : List DiseaseRecord) (obs : List String) :
    List (String × Nat) :=
  sortByScoreDesc (disease_scores rs obs)

/-- Atoms of the modelled regular-expression subset: literal characters
and the '.' wildcard. -/
inductive RAtom where
  | lit (c : Char)
  | dot
deriving DecidableEq

/-- Characters with special meaning to Python's re engine. -/
def regexMeta : List Char :=
  ['(', ')', '[', ']', '{', '}', '|', '^', '$', '\\', '*', '+', '?']

/-- Compilation of the query that line 72 hands to pandas str.contains
(hence to re.compile).  `none` means the pattern is rejected by the model:
for '(' and ')' and '[' and a leading quantifier this is a genuine
re.error, while the remaining metacharacters are outside the modelled
subset and are conservatively rejected.  Claims are only evaluated at
patterns where the model is exact. -/
def parseRegexChars : List Char → Option (List RAtom)
  | [] => some []
  | c :: cs =>
    if c ∈ regexMeta then none
    else (parseRegexChars cs).map
      (fun ps => (if c = '.' then RAtom.dot else RAtom.lit c) :: ps)

/-- Compile a query string in the modelled regex subset. -/
def parseRegex (p : String) : Option (List RAtom) := parseRegexChars p.data

/-- Single-atom match under re.IGNORECASE: '.' matches every character
except a newline; a literal matches up to case. -/
def atomMatches (a : RAtom) (c : Char) : Bool :=
  match a with
  | RAtom.dot => c ≠ '\n'
  | RAtom.lit c0 => c0.toLower = c.toLower

/-- Does the pattern match a prefix of the character list. -/
def matchHere : List RAtom → List Char → Bool
  | [], _ => true
  | _ :: _, [] => false
  | a :: ps, c :: cs => atomMatches a c && matchHere ps cs

/-- re.search over the modelled subset: the pattern matches starting at
some position of the string. -/
def reSearchChars (ps : List RAtom) : List Char → Bool
  | [] => matchHere ps []
  | c :: cs => matchHere ps (c :: cs) || reSearchChars ps cs

/-- The name-search result of line 72 (the `matches` variable of the
source; `matches` is a reserved word in Lean):
`df[df['name'].str.contains(query, case=False, na=False)]`.  pandas
compiles the query as a regular expression; a compilation error escapes
as an exception (modelled by `Except.error ()`). -/
def searchMatches (rs : List DiseaseRecord) (query : String) :
    Except Unit (List DiseaseRecord) :=
  match parseRegex query with
  | none => Except.error ()
  | some ps => Except.ok (rs.filter (fun r => reSearchChars ps r.name.data))

/-- Boolean test that the first list is a contiguous prefix of the
second. -/
def prefixOfChars : List Char → List Char → Bool
  | [], _ => true
  | _ :: _, [] => false
  | a :: as, b :: bs => a == b && prefixOfChars as bs

/-- Boolean test that the first list occurs contiguously inside the
second. -/
def infixOfChars (needle : List Char) : List Char → Bool
  | [] => prefixOfChars needle []
  | c :: cs => prefixOfChars needle (c :: cs) || infixOfChars needle cs

/-- Modelled from the spec's words (C5): name search as case-insensitive
literal substring filtering. -/
def search_by_name_spec (rs : List DiseaseRecord) (query : String) :
    List DiseaseRecord :=
  rs.filter (fun r => infixOfChars (pyLower query.data) (pyLower r.name.data))

/-- Modelled from the claim's words (C1): risk assignment whose ratio
denominator is the size of the symptom token SET (deduplicated), as the
claim defines the record's tokens. -/
def riskOfSpecC1 (obs : List String) (r : DiseaseRecord) : String :=
  if 0 < matchedRedFlagCount obs r then "High 🔴"
  else if max (splitTokens r.symptoms).dedup.length 1
      < 2 * matchedCount obs r then "Medium 🟠"
  else "Low 🟢"

/-- The symptom token set of a record, as a finite set. -/
def symTokens (r : DiseaseRecord) : Finset String :=
  (splitTokens r.symptoms).toFinset

/-- The red-flag token set of a record, as a finite set. -/
def redTokens (r : DiseaseRecord) : Finset String :=
  (splitTokens r.red_flags).toFinset

/-- Last element of a list satisfying a predicate ("the last such record
in source row order"). -/
def lastMatch? {α : Type} (p : α → Bool) : List α → Option α
  | [] => none
  | x :: xs =>
    match lastMatch? p xs with
    | some y => some y
    | none => if p x then some x else none

/-- Qualifying test for a name in the scoring loop: the record bears the
name and has a positive match count. -/
def qualB (obs : List String) (n : String) (r : DiseaseRecord) : Bool :=
  r.name == n && decide (0 < matchedCount obs r)

/-! ### Association-list (Python dict) lemmas -/

theorem dictGet?_insert {α : Type} (m : List (String × α)) (k q : String) (v : α) :
    dictGet? (dictInsert m k v) q = if k = q then some v else dictGet? m q := by
  induction m with
  | nil =>
    by_cases hq : k = q <;> simp [dictInsert, dictGet?, hq]
  | cons p m ih =>
    obtain ⟨k0, v0⟩ := p
    by_cases h : k0 = k
    · subst h
      by_cases hq : k0 = q <;> simp [dictInsert, dictGet?, hq]
    · by_cases hq : k0 = q
      · subst hq
        have hk : ¬ k = k0 := fun hk => h hk.symm
        simp [dictInsert, dictGet?, h, hk]
      · simp [dictInsert, dictGet?, h, hq, ih]

theorem dictGet?_append {α : Type} (l1 l2 : List (String × α)) (q : String) :
    dictGet? (l1 ++ l2) q = (dictGet? l1 q).or (dictGet? l2 q) := by
  induction l1 with
  | nil => simp [dictGet?]
  | cons p l1 ih =>
    obtain ⟨k0, v0⟩ := p
    by_cases hq : k0 = q <;> simp [dictGet?, hq, ih]

theorem dictInsert_of_fresh {α : Type} (m : List (String × α)) (k : String) (v : α)
    (h : dictGet? m k = none) : dictInsert m k v = m ++ [(k, v)] := by
  induction m with
  | nil => simp [dictInsert]
  | cons p m ih =>
    obtain ⟨k0, v0⟩ := p
    by_cases hk : k0 = k
    · simp [dictGet?, hk] at h
    · simp [dictGet?, hk] at h
      simp [dictInsert, hk, ih h]

/-! ### lastMatch? lemmas -/

theorem lastMatch?_some {α : Type} {p : α → Bool} :
    ∀ {l : List α} {r : α}, lastMatch? p l = some r → r ∈ l ∧ p r = true := by
  intro l
  induction l with
  | nil => intro r h; simp [lastMatch?] at h
  | cons x xs ih =>
    intro r h
    simp only [lastMatch?] at h
    cases htail : lastMatch? p xs with
    | some y =>
      rw [htail] at h
      obtain ⟨hm, hp⟩ := ih htail
      cases h
      exact ⟨List.mem_cons_of_mem _ hm, hp⟩
    | none =>
      rw [htail] at h
      by_cases hx : p x = true
      · simp [hx] at h
        cases h
        exact ⟨List.mem_cons_self _ _, hx⟩
      · simp [hx] at h

theorem lastMatch?_eq_none {α : Type} {p : α → Bool} :
    ∀ {l : List α}, lastMatch? p l = none ↔ ∀ x ∈ l, ¬ p x = true := by
  intro l
  induction l with
  | nil => simp [lastMatch?]
  | cons x xs ih =>
    constructor
    · intro h
      simp only [lastMatch?] at h
      cases htail : lastMatch? p xs with
      | some y => rw [htail] at h; cases h
      | none =>
        rw [htail] at h
        intro z hz
        rcases List.mem_cons.mp hz with rfl | hmem
        · intro hp; rw [if_pos hp] at h; cases h
        · exact ih.mp htail z hmem
    · intro h
      have htail : lastMatch? p xs = none :=
        ih.mpr (fun z hz => h z (List.mem_cons_of_mem _ hz))
      have hx : ¬ p x = true := h x (List.mem_cons_self _ _)
      simp [lastMatch?, htail, hx]

theorem lastMatch?_isSome_of_mem {α : Type} {p : α → Bool} {l : List α} {x : α}
    (hx : x ∈ l) (hp : p x = true) : ∃ r, lastMatch? p l = some r := by
  cases h : lastMatch? p l with
  | some r => exact ⟨r, rfl⟩
  | none => exact absurd hp (lastMatch?_eq_none.mp h x hx)

/-! ### Bridges between the operational counts and finite-set cardinalities -/

theorem matchedCount_eq_card (obs : List String) (r : DiseaseRecord) :
    matchedCount obs r = (obs.toFinset ∩ symTokens r).card := by
  unfold matchedCount symTokens
  rw [← List.card_toFinset]
  congr 1
  ext a
  simp [List.mem_toFinset, List.mem_filter, Finset.mem_inter]

theorem matchedRedFlagCount_eq_card (obs : List String) (r : DiseaseRecord) :
    matchedRedFlagCount obs r = (obs.toFinset ∩ redTokens r).card := by
  unfold matchedRedFlagCount redTokens
  rw [← List.card_toFinset]
  congr 1
  ext a
  simp [List.mem_toFinset, List.mem_filter, Finset.mem_inter]

/-! ### The scoring loop: lookup after the fold -/

theorem scoreFold_lookup (obs : List String) (n : String) :
    ∀ (rs : List DiseaseRecord) (acc : List (String × Nat) × List (String × String)),
    dictGet? (scoreFold obs rs acc).1 n =
      (match lastMatch? (qualB obs n) rs with
       | some r => some (matchedCount obs r)
       | none => dictGet? acc.1 n) ∧
    dictGet? (scoreFold obs rs acc).2 n =
      (match lastMatch? (qualB obs n) rs with
       | some r => some (riskOf obs r)
       | none => dictGet? acc.2 n) := by
  intro rs
  induction rs with
  | nil => intro acc; exact ⟨rfl, rfl⟩
  | cons r rs ih =>
    intro acc
    have hfold : scoreFold obs (r :: rs) acc = scoreFold obs rs (scoreStep obs acc r) := rfl
    obtain ⟨ih1, ih2⟩ := ih (scoreStep obs acc r)
    cases htail : lastMatch? (qualB obs n) rs with
    | some y =>
      rw [htail] at ih1 ih2
      have hcons : lastMatch? (qualB obs n) (r :: rs) = some y := by
        simp [lastMatch?, htail]
      rw [hfold, hcons]
      exact ⟨ih1, ih2⟩
    | none =>
      rw [htail] at ih1 ih2
      have hcons : lastMatch? (qualB obs n) (r :: rs)
          = if qualB obs n r then some r else none := by
        simp [lastMatch?, htail]
      rw [hfold, hcons]
      by_cases hq : qualB obs n r = true
      · have hname : r.name = n := by
          simp [qualB] at hq; exact hq.1
        have hpos : 0 < matchedCount obs r := by
          simp [qualB] at hq; exact hq.2
        rw [ih1, ih2]
        simp [scoreStep, if_pos hpos, dictGet?_insert, hname, hq]
      · simp only [hq, if_false]
        by_cases hpos : 0 < matchedCount obs r
        · have hname : ¬ r.name = n := by
            intro hn
            exact hq (by simp [qualB, hn, hpos])
          rw [ih1, ih2]
          simp [scoreStep, if_pos hpos, dictGet?_insert, hname]
        · rw [ih1, ih2]
          simp [scoreStep, hpos]

/-! ### Scoring with an empty observed set -/

theorem matchedCount_nil (r : DiseaseRecord) : matchedCount [] r = 0 := rfl

theorem scoreFold_nil_obs :
    ∀ (rs : List DiseaseRecord) (acc : List (String × Nat) × List (String × String)),
    scoreFold [] rs acc = acc := by
  intro rs
  induction rs with
  | nil => intro acc; rfl
  | cons r rs ih =>
    intro acc
    have hstep : scoreStep [] acc r = acc := by
      simp [scoreStep, matchedCount_nil]
    have hfold : scoreFold [] (r :: rs) acc = scoreFold [] rs (scoreStep [] acc r) := rfl
    rw [hfold, hstep, ih]

/-- C9: when several loaded records share a normalized name and have a
positive match count, the scorer's dicts hold the score and the risk tier
of the last such record in source row order, silently overwriting the
earlier ones. -/
theorem duplicate_names_last_record_wins (rs : List DiseaseRecord)
    (obs : List String) (n : String) (r : DiseaseRecord)
    (h : lastMatch? (qualB obs n) rs = some r) :
    dictGet? (disease_scores rs obs) n = some (matchedCount obs r) ∧
    dictGet? (risk_levels rs obs) n = some (riskOf obs r) := by
  obtain ⟨h1, h2⟩ := scoreFold_lookup obs n rs ([], [])
  rw [h] at h1 h2
  exact ⟨h1, h2⟩

theorem duplicate_names_last_record_wins_witness :
    (dictGet? (disease_scores [⟨"d", "a,b", ""⟩, ⟨"d", "a", ""⟩] ["a", "b"]) "d"
        = some (matchedCount ["a", "b"] ⟨"d", "a", ""⟩) ∧
      dictGet? (risk_levels [⟨"d", "a,b", ""⟩, ⟨"d", "a", ""⟩] ["a", "b"]) "d"
        = some (riskOf ["a", "b"] ⟨"d", "a", ""⟩)) ∧
    matchedCount ["a", "b"] (⟨"d", "a", ""⟩ : DiseaseRecord) = 1 ∧
    riskOf ["a", "b"] (⟨"d", "a", ""⟩ : DiseaseRecord) = "Medium 🟠" :=
  ⟨duplicate_names_last_record_wins _ _ _ _ (by decide), by decide, by decide⟩

/-- C10: every stored score lies between 1 and the number of distinct
observed symptoms, and the risk dict holds exactly the same names as the
score dict. -/
theorem scores_bounded_and_risk_keys_match (rs : List DiseaseRecord)
    (obs : List String) :
    (∀ n v, dictGet? (disease_scores rs obs) n = some v →
      1 ≤ v ∧ v ≤ obs.toFinset.card) ∧
    (∀ n, (dictGet? (disease_scores rs obs) n).isSome
        ↔ (dictGet? (risk_levels rs obs) n).isSome) := by
  constructor
  · intro n v hv
    obtain ⟨h1, _⟩ := scoreFold_lookup obs n rs ([], [])
    have h1' : dictGet? (disease_scores rs obs) n =
        (match lastMatch? (qualB obs n) rs with
         | some r => some (matchedCount obs r)
         | none => dictGet? (([], []) :
            List (String × Nat) × List (String × String)).1 n) := h1
    cases hlm : lastMatch? (qualB obs n) rs with
    | none =>
      rw [hlm] at h1'
      rw [hv] at h1'
      cases h1'
    | some r =>
      rw [hlm] at h1'
      rw [hv] at h1'
      obtain ⟨_, hq⟩ := lastMatch?_some hlm
      have hpos : 0 < matchedCount obs r := by
        simp [qualB] at hq; exact hq.2
      have hveq : v = matchedCount obs r := Option.some.inj h1'
      constructor
      · rw [hveq]; exact hpos
      · rw [hveq, matchedCount_eq_card]
        exact Finset.card_le_card (Finset.inter_subset_left)
  · intro n
    obtain ⟨h1, h2⟩ := scoreFold_lookup obs n rs ([], [])
    have h1' : dictGet? (disease_scores rs obs) n = _ := h1
    have h2' : dictGet? (risk_levels rs obs) n = _ := h2
    cases hlm : lastMatch? (qualB obs n) rs with
    | none => rw [hlm] at h1' h2'; rw [h1', h2']; simp [dictGet?]
    | some r => rw [hlm] at h1' h2'; rw [h1', h2']; simp

theorem scores_bounded_and_risk_keys_match_witness :
    1 ≤ 1 ∧ 1 ≤ (["a"] : List String).toFinset.card :=
  (scores_bounded_and_risk_keys_match [⟨"d", "a", ""⟩] ["a"]).1 "d" 1 (by decide)

/-- C2 counterexample: with two records sharing the name "d", the record
with symptom cell "a,b" has intersection of size 2 with the observed set,
yet the scorer's result maps "d" to 1 (the later record's score), so it is
not "mapped to a score equal to the size of that intersection". -/
theorem disease_scores_duplicate_name_counterexample :
    disease_scores [⟨"d", "a,b", ""⟩, ⟨"d", "a", ""⟩] ["a", "b"] = [("d", 1)] ∧
    (["a", "b"] : List String).toFinset ∩ symTokens ⟨"d", "a,b", ""⟩
      = (["a", "b"] : List String).toFinset ∧
    ((["a", "b"] : List String).toFinset ∩ symTokens ⟨"d", "a,b", ""⟩).card = 2 := by
  refine ⟨by decide, ?_, ?_⟩ <;> decide

/-- C2 (amended): provided the records' normalized names are pairwise
distinct, the scorer's result holds exactly the names of records whose
symptom token set meets the observed set, each mapped to the size of that
intersection; and an empty observed set yields an empty mapping.  (With
duplicate names the entry holds the last matching record's score, see the
duplicate-overwrite theorem.) -/
theorem disease_scores_characterization (rs : List DiseaseRecord)
    (obs : List String) (hnd : (rs.map DiseaseRecord.name).Nodup) :
    (∀ n v, dictGet? (disease_scores rs obs) n = some v ↔
      ∃ r, r ∈ rs ∧ r.name = n ∧ (obs.toFinset ∩ symTokens r).Nonempty ∧
        v = (obs.toFinset ∩ symTokens r).card) ∧
    disease_scores rs [] = [] := by
  constructor
  · intro n v
    obtain ⟨h1, _⟩ := scoreFold_lookup obs n rs ([], [])
    have h1' : dictGet? (disease_scores rs obs) n =
        (match lastMatch? (qualB obs n) rs with
         | some r => some (matchedCount obs r)
         | none => dictGet? (([], []) :
            List (String × Nat) × List (String × String)).1 n) := h1
    constructor
    · intro hv
      cases hlm : lastMatch? (qualB obs n) rs with
      | none =>
        rw [hlm] at h1'
        rw [hv] at h1'
        cases h1'
      | some r =>
        rw [hlm] at h1'
        rw [hv] at h1'
        obtain ⟨hmem, hq⟩ := lastMatch?_some hlm
        have hname : r.name = n := by simp [qualB] at hq; exact hq.1
        have hpos : 0 < matchedCount obs r := by simp [qualB] at hq; exact hq.2
        refine ⟨r, hmem, hname, ?_, ?_⟩
        · exact Finset.card_pos.mp (matchedCount_eq_card obs r ▸ hpos)
        · rw [← matchedCount_eq_card]
          exact Option.some.inj h1'
    · rintro ⟨r, hmem, hname, hne, hval⟩
      have hpos : 0 < matchedCount obs r := by
        rw [matchedCount_eq_card]
        exact Finset.card_pos.mpr hne
      have hq : qualB obs n r = true := by simp [qualB, hname, hpos]
      obtain ⟨r', hr'⟩ := lastMatch?_isSome_of_mem hmem hq
      obtain ⟨hmem', hq'⟩ := lastMatch?_some hr'
      have hname' : r'.name = n := by simp [qualB] at hq'; exact hq'.1
      have hrr : r' = r :=
        List.inj_on_of_nodup_map hnd hmem' hmem (by rw [hname', hname])
      rw [hr', hrr] at h1'
      have h1v : dictGet? (disease_scores rs obs) n
          = some (matchedCount obs r) := h1'
      rw [h1v, hval, matchedCount_eq_card]
  · have h := scoreFold_nil_obs rs ([], [])
    show (scoreFold [] rs ([], [])).1 = []
    rw [h]

theorem disease_scores_characterization_witness :
    ∃ r, r ∈ [(⟨"d", "a,b", ""⟩ : DiseaseRecord)] ∧ r.name = "d" ∧
      ((["a"] : List String).toFinset ∩ symTokens r).Nonempty ∧
      1 = ((["a"] : List String).toFinset ∩ symTokens r).card :=
  ((disease_scores_characterization [⟨"d", "a,b", ""⟩] ["a"] (by decide)).1
    "d" 1).mp (by decide)

/-- C1 counterexample: symptom cell "a,b,c,a,b" has token SET of size 3 but
token LIST of length 5.  With observed symptoms {a, b} (match count 2, no
red flags) the claim's set-based ratio is 2/3 > 1/2, so the claim assigns
MEDIUM (riskOfSpecC1), but the program divides by the list length with
multiplicity, 2/5 <= 1/2, and assigns LOW. -/
theorem riskOf_set_ratio_counterexample :
    0 < matchedCount ["a", "b"] ⟨"d", "a,b,c,a,b", ""⟩ ∧
    matchedRedFlagCount ["a", "b"] ⟨"d", "a,b,c,a,b", ""⟩ = 0 ∧
    (splitTokens ("a,b,c,a,b")).dedup.length = 3 ∧
    (splitTokens ("a,b,c,a,b")).length = 5 ∧
    matchedCount ["a", "b"] ⟨"d", "a,b,c,a,b", ""⟩ = 2 ∧
    riskOf ["a", "b"] ⟨"d", "a,b,c,a,b", ""⟩ = "Low 🟢" ∧
    riskOfSpecC1 ["a", "b"] ⟨"d", "a,b,c,a,b", ""⟩ = "Medium 🟠" := by
  decide

/-- C1 (amended): for a record with a positive match count the risk tier
follows the claimed precedence, except that the MEDIUM ratio divides the
match count by max(number of comma-separated non-empty trimmed symptom
tokens COUNTED WITH MULTIPLICITY, 1) — the token list length — not by the
size of the token set. -/
theorem riskOf_precedence_multiset_ratio (obs : List String)
    (r : DiseaseRecord) (_hpos : 0 < matchedCount obs r) :
    (riskOf obs r = "High 🔴" ↔ (obs.toFinset ∩ redTokens r).Nonempty) ∧
    (riskOf obs r = "Medium 🟠" ↔ obs.toFinset ∩ redTokens r = ∅ ∧
      (1 : ℚ) / 2 < ((obs.toFinset ∩ symTokens r).card : ℚ)
        / ((max (splitTokens r.symptoms).length 1 : Nat) : ℚ)) ∧
    (riskOf obs r = "Low 🟢" ↔ obs.toFinset ∩ redTokens r = ∅ ∧
      ((obs.toFinset ∩ symTokens r).card : ℚ)
        / ((max (splitTokens r.symptoms).length 1 : Nat) : ℚ) ≤ (1 : ℚ) / 2) := by
  have hm := matchedCount_eq_card obs r
  have hrf := matchedRedFlagCount_eq_card obs r
  have hposiff : 0 < matchedRedFlagCount obs r
      ↔ (obs.toFinset ∩ redTokens r).Nonempty := by
    rw [hrf]; exact Finset.card_pos
  have hzeroiff : matchedRedFlagCount obs r = 0
      ↔ obs.toFinset ∩ redTokens r = ∅ := by
    rw [hrf]; exact Finset.card_eq_zero
  unfold riskOf
  set m : Nat := max (splitTokens r.symptoms).length 1 with hmdef
  have hmpos : 0 < m := lt_of_lt_of_le Nat.one_pos (le_max_right _ _)
  have hratio : ((1 : ℚ) / 2 < ((obs.toFinset ∩ symTokens r).card : ℚ) / (m : ℚ))
      ↔ m < 2 * (obs.toFinset ∩ symTokens r).card := by
    rw [div_lt_div_iff₀ (by norm_num) (by exact_mod_cast hmpos), one_mul]
    constructor
    · intro h'
      have h'' : m < (obs.toFinset ∩ symTokens r).card * 2 := by exact_mod_cast h'
      omega
    · intro h'
      have h'' : m < (obs.toFinset ∩ symTokens r).card * 2 := by omega
      exact_mod_cast h''
  split_ifs with h1 h2
  · refine ⟨iff_of_true rfl (hposiff.mp h1), ?_, ?_⟩
    · refine iff_of_false (by decide) ?_
      rintro ⟨he, -⟩
      obtain ⟨x, hx⟩ := hposiff.mp h1
      exact Finset.not_mem_empty x (he ▸ hx)
    · refine iff_of_false (by decide) ?_
      rintro ⟨he, -⟩
      obtain ⟨x, hx⟩ := hposiff.mp h1
      exact Finset.not_mem_empty x (he ▸ hx)
  · have hempty : obs.toFinset ∩ redTokens r = ∅ :=
      hzeroiff.mp (Nat.eq_zero_of_not_pos h1)
    rw [hm] at h2
    refine ⟨?_, iff_of_true rfl ⟨hempty, hratio.mpr h2⟩, ?_⟩
    · exact iff_of_false (by decide) (fun hne => h1 (hposiff.mpr hne))
    · refine iff_of_false (by decide) ?_
      rintro ⟨-, hle⟩
      exact absurd (hratio.mpr h2) (not_lt.mpr hle)
  · have hempty : obs.toFinset ∩ redTokens r = ∅ :=
      hzeroiff.mp (Nat.eq_zero_of_not_pos h1)
    rw [hm] at h2
    refine ⟨?_, ?_, iff_of_true rfl ⟨hempty, not_lt.mp (fun hlt => h2 (hratio.mp hlt))⟩⟩
    · exact iff_of_false (by decide) (fun hne => h1 (hposiff.mpr hne))
    · refine iff_of_false (by decide) ?_
      rintro ⟨-, hlt⟩
      exact h2 (hratio.mp hlt)

theorem riskOf_precedence_multiset_ratio_witness :
    riskOf ["x", "y"] ⟨"d", "x,y,z", "y"⟩ = "High 🔴"
      ↔ ((["x", "y"] : List String).toFinset
          ∩ redTokens ⟨"d", "x,y,z", "y"⟩).Nonempty :=
  (riskOf_precedence_multiset_ratio ["x", "y"] ⟨"d", "x,y,z", "y"⟩ (by decide)).1

/-! ### Stable descending sort: sortedness and stability -/

theorem mem_insertByScore (x a : String × Nat) :
    ∀ (l : List (String × Nat)), a ∈ insertByScore x l ↔ a = x ∨ a ∈ l := by
  intro l
  induction l with
  | nil => simp [insertByScore]
  | cons y ys ih =>
    by_cases h : x.2 ≤ y.2
    · simp [insertByScore, h, ih]
      tauto
    · simp [insertByScore, h, ih]

theorem pairwise_insertByScore (x : String × Nat) (l : List (String × Nat))
    (hl : l.Pairwise (fun a b => b.2 ≤ a.2)) :
    (insertByScore x l).Pairwise (fun a b => b.2 ≤ a.2) := by
  induction l with
  | nil => simp [insertByScore]
  | cons y ys ih =>
    obtain ⟨hy, hys⟩ := List.pairwise_cons.mp hl
    by_cases h : x.2 ≤ y.2
    · rw [insertByScore, if_pos h]
      refine List.pairwise_cons.mpr ⟨?_, ih hys⟩
      intro z hz
      rcases (mem_insertByScore x z ys).mp hz with rfl | hz'
      · exact h
      · exact hy z hz'
    · rw [insertByScore, if_neg h]
      have hyx : y.2 ≤ x.2 := Nat.le_of_lt (Nat.lt_of_not_le h)
      refine List.pairwise_cons.mpr ⟨?_, hl⟩
      intro z hz
      rcases List.mem_cons.mp hz with rfl | hz'
      · exact hyx
      · exact le_trans (hy z hz') hyx

theorem filter_insertByScore (s : Nat) (x : String × Nat) :
    ∀ (l : List (String × Nat)), l.Pairwise (fun a b => b.2 ≤ a.2) →
    (insertByScore x l).filter (fun y => y.2 == s)
      = l.filter (fun y => y.2 == s) ++ (if x.2 == s then [x] else []) := by
  intro l
  induction l with
  | nil =>
    intro _
    by_cases hx : x.2 == s <;> simp [insertByScore, List.filter, hx]
  | cons y ys ih =>
    intro hl
    obtain ⟨hy, hys⟩ := List.pairwise_cons.mp hl
    by_cases h : x.2 ≤ y.2
    · rw [insertByScore, if_pos h, List.filter_cons, List.filter_cons]
      rw [ih hys]
      by_cases hy2 : y.2 == s <;> simp [hy2]
    · rw [insertByScore, if_neg h]
      have hlt : y.2 < x.2 := Nat.lt_of_not_le h
      by_cases hx : x.2 == s
      · have hxs : x.2 = s := by simpa using hx
        have hnone : ∀ z ∈ y :: ys, ¬ ((fun y => y.2 == s) z = true) := by
          intro z hz
          rcases List.mem_cons.mp hz with rfl | hz'
          · simp; omega
          · have := hy z hz'
            simp; omega
        rw [List.filter_cons_of_pos (by simpa using hx)]
        rw [List.filter_eq_nil_iff.mpr hnone]
        simp [hx]
      · rw [List.filter_cons_of_neg (by simpa using hx)]
        simp [hx]

theorem sortFold_spec (s : Nat) :
    ∀ (xs : List (String × Nat)) (acc : List (String × Nat)),
    acc.Pairwise (fun a b => b.2 ≤ a.2) →
    (xs.foldl (fun a x => insertByScore x a) acc).Pairwise
      (fun a b => b.2 ≤ a.2) ∧
    (xs.foldl (fun a x => insertByScore x a) acc).filter (fun y => y.2 == s)
      = acc.filter (fun y => y.2 == s) ++ xs.filter (fun y => y.2 == s) := by
  intro xs
  induction xs with
  | nil => intro acc h; exact ⟨h, by simp⟩
  | cons x xs ih =>
    intro acc h
    obtain ⟨hp, hf⟩ := ih (insertByScore x acc) (pairwise_insertByScore x acc h)
    refine ⟨hp, ?_⟩
    rw [List.foldl_cons]
    rw [hf, filter_insertByScore s x acc h, List.filter_cons]
    by_cases hx : x.2 == s <;> simp [hx, List.append_assoc]

/-! ### Row-order shape of the score dict under distinct names -/

theorem scoreFold_append_of_fresh (obs : List String) :
    ∀ (rs : List DiseaseRecord)
      (acc : List (String × Nat) × List (String × String)),
    (∀ r ∈ rs, dictGet? acc.1 r.name = none) →
    (rs.map DiseaseRecord.name).Nodup →
    (scoreFold obs rs acc).1 =
      acc.1 ++ (rs.filter (fun r => decide (0 < matchedCount obs r))).map
        (fun r => (r.name, matchedCount obs r)) := by
  intro rs
  induction rs with
  | nil => intro acc _ _; simp [scoreFold]
  | cons r rs ih =>
    intro acc hfresh hnd
    have hnd2 : (r.name :: rs.map DiseaseRecord.name).Nodup := by
      simpa using hnd
    obtain ⟨hr, hnd'⟩ := List.nodup_cons.mp hnd2
    have hfold : scoreFold obs (r :: rs) acc
        = scoreFold obs rs (scoreStep obs acc r) := rfl
    rw [hfold]
    by_cases hpos : 0 < matchedCount obs r
    · have hstep1 : (scoreStep obs acc r).1
          = acc.1 ++ [(r.name, matchedCount obs r)] := by
        rw [scoreStep, if_pos hpos]
        exact dictInsert_of_fresh _ _ _ (hfresh r (List.mem_cons_self _ _))
      have hfresh' : ∀ r' ∈ rs, dictGet? (scoreStep obs acc r).1 r'.name = none := by
        intro r' hr'
        rw [hstep1, dictGet?_append]
        have h1 : dictGet? acc.1 r'.name = none :=
          hfresh r' (List.mem_cons_of_mem _ hr')
        have h2 : dictGet? [(r.name, matchedCount obs r)] r'.name = none := by
          have hne : ¬ r.name = r'.name := by
            intro he
            exact hr (he ▸ List.mem_map_of_mem DiseaseRecord.name hr')
          simp [dictGet?, hne]
        rw [h1, h2]
        rfl
      rw [ih (scoreStep obs acc r) hfresh' hnd', hstep1]
      rw [List.filter_cons_of_pos (by simpa using hpos)]
      simp [List.append_assoc]
    · have hstep : scoreStep obs acc r = acc := by
        rw [scoreStep, if_neg hpos]
      rw [hstep]
      rw [ih acc (fun r' hr' => hfresh r' (List.mem_cons_of_mem _ hr')) hnd']
      rw [List.filter_cons_of_neg (by simpa using hpos)]

/-- C7: the ranked output is sorted by score in descending order, the sort
is stable (for every score the entries with that score appear exactly as
they do in the score dict, whose order is the encounter order of the
rows), and — when names are pairwise distinct — the score dict itself
lists the positively scoring records in their original source row
order. -/
theorem sorted_diseases_desc_stable (rs : List DiseaseRecord)
    (obs : List String) :
    (sorted_diseases rs obs).Pairwise (fun a b => b.2 ≤ a.2) ∧
    (∀ s, (sorted_diseases rs obs).filter (fun x => x.2 == s)
        = (disease_scores rs obs).filter (fun x => x.2 == s)) ∧
    ((rs.map DiseaseRecord.name).Nodup →
      disease_scores rs obs
        = (rs.filter (fun r => decide (0 < matchedCount obs r))).map
            (fun r => (r.name, matchedCount obs r))) := by
  refine ⟨?_, ?_, ?_⟩
  · exact (sortFold_spec 0 (disease_scores rs obs) [] (List.Pairwise.nil)).1
  · intro s
    have h := (sortFold_spec s (disease_scores rs obs) [] (List.Pairwise.nil)).2
    simpa [sorted_diseases, sortByScoreDesc] using h
  · intro hnd
    have h := scoreFold_append_of_fresh obs rs ([], [])
      (fun r _ => rfl) hnd
    simpa [disease_scores] using h

theorem sorted_diseases_desc_stable_witness :
    disease_scores [⟨"e", "a", ""⟩] ["a"]
      = ([(⟨"e", "a", ""⟩ : DiseaseRecord)].filter
          (fun r => decide (0 < matchedCount ["a"] r))).map
            (fun r => (r.name, matchedCount ["a"] r)) :=
  (sorted_diseases_desc_stable [⟨"e", "a", ""⟩] ["a"]).2.2 (by decide)

/-! ### Name search: the pandas regex semantics versus the substring claim -/

/-- C5: the query is handed to a regex engine, not matched as a literal
substring.  At query "." the program matches every record (here the one
named "flu" and displays it as the first match), though "flu" does not
contain "." as a substring, so the substring filter prescribed by the
claim returns nothing. -/
theorem name_search_regex_dot_divergence :
    searchMatches [⟨"flu", "", ""⟩] "." = Except.ok [⟨"flu", "", ""⟩] ∧
    search_by_name_spec [⟨"flu", "", ""⟩] "." = [] ∧
    searchMatches [⟨"flu", "", ""⟩] "flu" = Except.ok [⟨"flu", "", ""⟩] :=
  ⟨rfl, rfl, rfl⟩

/-- C6: a query that is not a valid regular expression, such as "(", makes
the regex compilation raise (re.error: unterminated subpattern), so the
name search errors out instead of returning the empty sequence — even
though no record name contains "(" as a substring. -/
theorem name_search_regex_error_divergence :
    searchMatches [⟨"flu", "", ""⟩] "(" = Except.error () ∧
    search_by_name_spec [⟨"flu", "", ""⟩] "(" = [] :=
  ⟨rfl, rfl⟩

/-! ### Loader lemmas -/

theorem getCol?_isSome_of_mem_names (df : DF) (c : String)
    (h : c ∈ df.names) : ∃ vs, df.getCol? c = some vs := by
  rw [DF.names, List.mem_map] at h
  obtain ⟨p, hp, hpc⟩ := h
  have hs : (df.cols.find? (fun q => q.1 = c)).isSome :=
    List.find?_isSome.mpr ⟨p, hp, by simp [hpc]⟩
  obtain ⟨pr, hpr⟩ := Option.isSome_iff_exists.mp hs
  exact ⟨pr.2, by simp [DF.getCol?, hpr]⟩

theorem fillFold_spec (n : Nat) :
    ∀ (cs : List String) (d : DF),
    ∃ extra, (cs.foldl (fillStep n) d).cols = d.cols ++ extra ∧
      (∀ p ∈ extra, p.1 ∈ cs ∧ p.2 = List.replicate n "") ∧
      ∀ c ∈ cs, c ∈ (cs.foldl (fillStep n) d).names := by
  intro cs
  induction cs with
  | nil => intro d; exact ⟨[], by simp, by simp, by simp⟩
  | cons c0 cs ih =>
    intro d
    by_cases h : c0 ∈ d.names
    · have hstep : fillStep n d c0 = d := by rw [fillStep, if_pos h]
      obtain ⟨extra, he, hprop, hmem⟩ := ih d
      simp only [List.foldl_cons, hstep]
      refine ⟨extra, he, ?_, ?_⟩
      · intro p hp
        exact ⟨List.mem_cons_of_mem _ (hprop p hp).1, (hprop p hp).2⟩
      · intro c hc
        rcases List.mem_cons.mp hc with hceq | hc'
        · have hnames : (cs.foldl (fillStep n) d).names
              = d.names ++ extra.map Prod.fst := by
            rw [DF.names, he, List.map_append]; rfl
          rw [hceq, hnames]
          exact List.mem_append_left _ h
        · exact hmem c hc'
    · have hstep : fillStep n d c0
          = DF.mk (d.cols ++ [(c0, List.replicate n "")]) := by
        rw [fillStep, if_neg h]
      obtain ⟨extra, he, hprop, hmem⟩ :=
        ih (DF.mk (d.cols ++ [(c0, List.replicate n "")]))
      simp only [List.foldl_cons, hstep]
      refine ⟨(c0, List.replicate n "") :: extra, ?_, ?_, ?_⟩
      · rw [he]; simp [List.append_assoc]
      · intro p hp
        rcases List.mem_cons.mp hp with rfl | hp'
        · exact ⟨List.mem_cons_self _ _, rfl⟩
        · exact ⟨List.mem_cons_of_mem _ (hprop p hp').1, (hprop p hp').2⟩
      · intro c hc
        rcases List.mem_cons.mp hc with hceq | hc'
        · have hnames : (cs.foldl (fillStep n)
              (DF.mk (d.cols ++ [(c0, List.replicate n "")]))).names
              = (d.cols ++ [(c0, List.replicate n "")]).map Prod.fst
                ++ extra.map Prod.fst := by
            rw [DF.names, he, List.map_append]
          rw [hceq, hnames]
          apply List.mem_append_left
          simp
        · exact hmem c hc'

theorem lowerNameCols_names (t : DF) :
    (lowerNameCols t).map Prod.fst = normNames t := by
  rw [lowerNameCols, normNames, List.map_map]
  have hfun : (Prod.fst ∘ fun p : String × List String =>
      if p.1 = "name" then (p.1, p.2.map pyLowerStr) else p) = Prod.fst := by
    funext p
    by_cases hp : p.1 = "name" <;> simp [hp]
  rw [hfun]

theorem nRows_lowerNameCols (t : DF) :
    DF.nRows (DF.mk (lowerNameCols t)) = t.nRows := by
  cases hcols : t.cols with
  | nil => simp [DF.nRows, lowerNameCols, normCols, hcols]
  | cons p ps =>
    by_cases hp : pyLowerStr (pyStripStr p.1) = "name" <;>
      simp [DF.nRows, lowerNameCols, normCols, hcols, hp]

theorem nRows_fillOptional (cols : List (String × List String)) (n : Nat)
    (hne : cols ≠ []) : (fillOptional cols n).nRows = DF.nRows (DF.mk cols) := by
  obtain ⟨extra, he, -, -⟩ := fillFold_spec n optionalCols (DF.mk cols)
  show DF.nRows (optionalCols.foldl (fillStep n) (DF.mk cols)) = _
  rw [DF.nRows, he]
  cases cols with
  | nil => exact absurd rfl hne
  | cons p ps => simp [DF.nRows]

/-- C3: loading fails fatally — reporting the full list of discovered
(normalized) column names — exactly when no header normalizes to "name";
otherwise it succeeds and returns the table with its row count intact.
The hypothesis restricts to frames whose normalized labels are distinct
(the modelled pandas domain). -/
theorem load_fails_iff_no_name_column (t : DF)
    (_hnd : (normNames t).Nodup) :
    (load_disease_data t = Except.error (normNames t)
      ↔ "name" ∉ normNames t) ∧
    ("name" ∈ normNames t →
      ∃ df, load_disease_data t = Except.ok df ∧ df.nRows = t.nRows) := by
  constructor
  · by_cases h : "name" ∈ normNames t
    · rw [load_disease_data, if_pos h]
      simp [h]
    · rw [load_disease_data, if_neg h]
      simp [h]
  · intro h
    refine ⟨_, by rw [load_disease_data, if_pos h], ?_⟩
    have hne : lowerNameCols t ≠ [] := by
      intro hnil
      have : normNames t = [] := by
        rw [← lowerNameCols_names, hnil]
        rfl
      rw [this] at h
      cases h
    rw [nRows_fillOptional _ _ hne, nRows_lowerNameCols]

theorem load_fails_iff_no_name_column_witness :
    (load_disease_data ⟨[("Age", ["1"])]⟩
        = Except.error (normNames ⟨[("Age", ["1"])]⟩)) ∧
    (∃ df, load_disease_data ⟨[(" Name ", [" Flu "])]⟩ = Except.ok df ∧
      df.nRows = DF.nRows ⟨[(" Name ", [" Flu "])]⟩) :=
  ⟨(load_fails_iff_no_name_column ⟨[("Age", ["1"])]⟩ (by decide)).1.mpr
      (by decide),
   (load_fails_iff_no_name_column ⟨[(" Name ", [" Flu "])]⟩ (by decide)).2
      (by decide)⟩

/-- C4: after a successful load, every recognized optional column is
present; when the column was absent from the (normalized) source it is
exactly one empty-string cell per source row. -/
theorem load_materializes_optional_columns (t df : DF)
    (_hnd : (normNames t).Nodup) (h : load_disease_data t = Except.ok df) :
    ∀ c ∈ optionalCols, ∃ vs, df.getCol? c = some vs ∧
      (c ∉ normNames t → vs = List.replicate t.nRows "") := by
  have hmem : "name" ∈ normNames t := by
    by_contra hno
    rw [load_disease_data, if_neg hno] at h
    cases h
  rw [load_disease_data, if_pos hmem] at h
  have hdf : df = fillOptional (lowerNameCols t)
      (DF.nRows (DF.mk (lowerNameCols t))) := (Except.ok.inj h).symm
  have hnt : DF.nRows (DF.mk (lowerNameCols t)) = t.nRows :=
    nRows_lowerNameCols t
  obtain ⟨extra, he, hprop, hmemall⟩ :=
    fillFold_spec (DF.nRows (DF.mk (lowerNameCols t))) optionalCols
      (DF.mk (lowerNameCols t))
  intro c hc
  have hcdf : c ∈ df.names := by
    rw [hdf]
    exact hmemall c hc
  obtain ⟨vs, hvs⟩ := getCol?_isSome_of_mem_names df c hcdf
  refine ⟨vs, hvs, fun hnotin => ?_⟩
  have hdfcols : df.cols = lowerNameCols t ++ extra := by
    rw [hdf]
    exact he
  have hnone : (lowerNameCols t).find? (fun p => p.1 = c) = none := by
    rw [List.find?_eq_none]
    intro x hx
    simp only [decide_eq_true_eq]
    intro hxc
    apply hnotin
    rw [← lowerNameCols_names, ← hxc]
    exact List.mem_map_of_mem Prod.fst hx
  have hfind : df.cols.find? (fun p => p.1 = c)
      = extra.find? (fun p => p.1 = c) := by
    rw [hdfcols, List.find?_append, hnone]
    rfl
  rw [DF.getCol?, hfind] at hvs
  cases hfx : extra.find? (fun p => p.1 = c) with
  | none => rw [hfx] at hvs; cases hvs
  | some pr =>
    rw [hfx] at hvs
    have hprm : pr ∈ extra := List.mem_of_find?_eq_some hfx
    have : pr.2 = List.replicate (DF.nRows (DF.mk (lowerNameCols t))) "" :=
      (hprop pr hprm).2
    have hvs' : vs = pr.2 := by
      cases hvs; rfl
    rw [hvs', this, hnt]

theorem load_materializes_optional_columns_witness :
    ∃ vs, DF.getCol? ⟨[("name", ["flu"]), ("medicines", [""]),
        ("herbal_remedies", [""]), ("red_flags", [""]), ("symptoms", [""]),
        ("care", [""]), ("transmission", [""]), ("prevention", [""]),
        ("treatment", [""]), ("refs", [""]), ("about", [""])]⟩ "about"
        = some vs ∧
      ("about" ∉ normNames ⟨[("Name", ["FLU"])]⟩ →
        vs = List.replicate (DF.nRows ⟨[("Name", ["FLU"])]⟩) "") :=
  load_materializes_optional_columns ⟨[("Name", ["FLU"])]⟩ _ (by decide) rfl
    "about" (by decide)

/-- C8 counterexample: a source name cell " Flu " loads as " flu " — the
value is lower-cased but NOT trimmed, while the claim's trimmed
lower-cased form is "flu". -/
theorem load_name_not_trimmed_counterexample :
    load_disease_data ⟨[(" Name ", [" Flu "])]⟩
      = Except.ok ⟨[("name", [" flu "]), ("medicines", [""]),
        ("herbal_remedies", [""]), ("red_flags", [""]), ("symptoms", [""]),
        ("care", [""]), ("transmission", [""]), ("prevention", [""]),
        ("treatment", [""]), ("refs", [""]), ("about", [""])]⟩ ∧
    DF.getCol? ⟨[("name", [" flu "]), ("medicines", [""]),
        ("herbal_remedies", [""]), ("red_flags", [""]), ("symptoms", [""]),
        ("care", [""]), ("transmission", [""]), ("prevention", [""]),
        ("treatment", [""]), ("refs", [""]), ("about", [""])]⟩ "name"
      = some [" flu "] ∧
    pyLowerStr (pyStripStr (" Flu ")) = "flu" ∧
    (" flu " : String) ≠ "flu" :=
  ⟨rfl, rfl, rfl, by decide⟩

/-- C8 (amended): after a successful load the stored name column is the
lower-cased form of the source cell values — lower-cased only, not
trimmed. -/
theorem load_name_lowercased (t df : DF) (_hnd : (normNames t).Nodup)
    (h : load_disease_data t = Except.ok df) :
    df.getCol? "name"
      = ((DF.mk (normCols t)).getCol? "name").map
          (fun vs => vs.map pyLowerStr) := by
  have hmem : "name" ∈ normNames t := by
    by_contra hno
    rw [load_disease_data, if_neg hno] at h
    cases h
  rw [load_disease_data, if_pos hmem] at h
  have hdf : df = fillOptional (lowerNameCols t)
      (DF.nRows (DF.mk (lowerNameCols t))) := (Except.ok.inj h).symm
  obtain ⟨extra, he, -, -⟩ :=
    fillFold_spec (DF.nRows (DF.mk (lowerNameCols t))) optionalCols
      (DF.mk (lowerNameCols t))
  have hdfcols : df.cols = lowerNameCols t ++ extra := by
    rw [hdf]
    exact he
  have hsome : ((normCols t).find? (fun p => p.1 = "name")).isSome := by
    apply List.find?_isSome.mpr
    rw [normNames, List.mem_map] at hmem
    obtain ⟨p, hp, hpc⟩ := hmem
    exact ⟨p, hp, by simp [hpc]⟩
  obtain ⟨q, hq⟩ := Option.isSome_iff_exists.mp hsome
  have hq1 : q.1 = "name" := by simpa using List.find?_some hq
  have hfind : (lowerNameCols t).find? (fun p => p.1 = "name")
      = some (q.1, q.2.map pyLowerStr) := by
    rw [lowerNameCols, List.find?_map]
    have hpred : ((fun p : String × List String => decide (p.1 = "name"))
        ∘ (fun p : String × List String =>
            if p.1 = "name" then (p.1, p.2.map pyLowerStr) else p))
        = (fun p : String × List String => decide (p.1 = "name")) := by
      funext p
      by_cases hp : p.1 = "name" <;> simp [hp]
    rw [hpred, hq]
    simp [hq1]
  have hfind2 : df.cols.find? (fun p => p.1 = "name")
      = some (q.1, q.2.map pyLowerStr) := by
    rw [hdfcols, List.find?_append, hfind]
    rfl
  rw [DF.getCol?, hfind2, DF.getCol?, hq]
  rfl

theorem load_name_lowercased_witness :
    DF.getCol? ⟨[("name", ["flu"]), ("medicines", [""]),
        ("herbal_remedies", [""]), ("red_flags", [""]), ("symptoms", [""]),
        ("care", [""]), ("transmission", [""]), ("prevention", [""]),
        ("treatment", [""]), ("refs", [""]), ("about", [""])]⟩ "name"
      = ((DF.mk (normCols ⟨[("Name", ["FLU"])]⟩)).getCol? "name").map
          (fun vs => vs.map pyLowerStr) :=
  load_name_lowercased ⟨[("Name", ["FLU"])]⟩ _ (by decide) rfl
